import Mathlib

/-!
Verification development for the blog3 slug identity and history subsystem.
The definitions below are a shallow embedding of `src/main.rs`: strings are
lists of characters, the SQLite tables are Lean lists, uuids are naturals,
and each handler is a pure function from a database state (plus the inputs
that Rust obtains from the environment: the fresh uuid, the current time,
the request body) to the new database state and a response.  A transaction
that is not committed is modelled by returning the original database state.
-/

namespace Blog3

abbrev Str := List Char

/-- ASCII lowercasing of one character, as SQLite's default `LIKE` and the
slugifier apply it (non-ASCII letters are untouched). -/
def charLowerAscii (c : Char) : Char :=
  if 'A' ≤ c ∧ c ≤ 'Z' then Char.ofNat (c.toNat + 32) else c

def isAlnumAscii (c : Char) : Bool :=
  ('a' ≤ c ∧ c ≤ 'z') ∨ ('A' ≤ c ∧ c ≤ 'Z') ∨ ('0' ≤ c ∧ c ≤ '9')

def digitChar (n : Nat) : Char := Char.ofNat (48 + n)

/-- Decimal digits of a natural number, most significant first, with
structural fuel so that the kernel can evaluate it. -/
def natDigitsAux : Nat → Nat → List Char
  | 0, _ => []
  | fuel + 1, n => if n < 10 then [digitChar n] else natDigitsAux fuel (n / 10) ++ [digitChar (n % 10)]

def natDigits (n : Nat) : List Char := natDigitsAux (n + 1) n

/-- The `-{n}` suffix that `format!("{slug}-{posts_with_slug}")` appends. -/
def numSuffix (n : Nat) : Str := '-' :: natDigits n

/-- `{:0w}` formatting of a natural: decimal digits left-padded with zeros. -/
def padNum (w n : Nat) : Str :=
  let s := natDigits n
  List.replicate (w - s.length) '0' ++ s

/-- Model of `chrono::DateTime<FixedOffset>`: the calendar date in the stored
offset plus an abstract time-of-day tick distinguishing instants within a day. -/
structure Timestamp where
  year : Nat
  month : Nat
  day : Nat
  tod : Nat
deriving DecidableEq

/-- The `-{:04}-{:02}-{:02}` date suffix of `Post::slug`. -/
def dateSuffix (t : Timestamp) : Str :=
  ('-' :: padNum 4 t.year) ++ ('-' :: padNum 2 t.month) ++ ('-' :: padNum 2 t.day)

/-- Modelled from the spec: the external `slug::slugify` collaborator (its
crate source is not part of this repository).  Per §4.1 it lowercases,
strips punctuation and collapses whitespace runs to single `-` separators,
trimming separators at both ends; ASCII transliteration of non-ASCII input
is not modelled (the claims only apply it to ASCII titles).
`started` records whether a character was already emitted (so leading
separators are dropped), `pend` records a pending separator. -/
def slugifyAux : List Char → Bool → Bool → List Char
  | [], _, _ => []
  | c :: cs, started, pend =>
    if isAlnumAscii c then
      if started ∧ pend then
        '-' :: charLowerAscii c :: slugifyAux cs true false
      else
        charLowerAscii c :: slugifyAux cs true false
    else
      slugifyAux cs started true

def slugify (s : Str) : Str := slugifyAux s false false

/-- UTF-8 byte length of a string, as Rust's `str::len`. -/
def byteLen (s : Str) : Nat := (s.map Char.utf8Size).sum

/-- Model of the byte slice `&title[..n]`: take whole characters summing to
exactly `n` bytes; `none` models the Rust panic raised when byte index `n`
is not a character boundary. -/
def takeBytes : Str → Nat → Option Str
  | _, 0 => some []
  | [], _ + 1 => none
  | c :: cs, n + 1 =>
    if c.utf8Size ≤ n + 1 then (takeBytes cs (n + 1 - c.utf8Size)).map (c :: ·) else none

/-- The `short` computation of `Post::slug`: `if title.len() > 26 { &title[..26] } else { &title }`.
Rust's `len` counts bytes, and the slice panics off a boundary (`none`). -/
def shortOf (title : Str) : Option Str :=
  if byteLen title > 26 then takeBytes title 26 else some title

/-- The `post` table row. -/
structure Post where
  id : Nat
  title : Str
  subtitle : Option Str
  published : Timestamp
  content : Str
deriving DecidableEq

/-- `Post::slug`: slugify the (byte-)truncated title and append the date
suffix.  `none` models the panic of the byte slice. -/
def Post.slug (p : Post) : Option Str :=
  (shortOf p.title).map (fun short => slugify short ++ dateSuffix p.published)

/-- The `slug` table row: the slug text, the owning post id, and the
`newslug` column (the superseded-by pointer, `NULL` when absent). -/
structure SlugRow where
  slug : Str
  id : Nat
  newslug : Option Str
deriving DecidableEq

/-- The three durable collections: `post`, `slug` and `old` (the archive,
whose `data` column serializes the whole pre-update post). -/
structure Db where
  posts : List Post
  slugs : List SlugRow
  old : List (Nat × Post)
deriving DecidableEq

def emptyDb : Db := ⟨[], [], []⟩

/-- SQLite `LIKE` matching with structural fuel (`fuel` strictly above
`pat.length + s.length` suffices): `%` matches any run, `_` any single
character, and plain characters compare ASCII-case-insensitively, which is
SQLite's default `LIKE` behaviour. -/
def likeMatchF : Nat → Str → Str → Bool
  | 0, _, _ => false
  | fuel + 1, pat, s =>
    match pat with
    | [] => s.isEmpty
    | p :: ps =>
      if p = '%' then
        likeMatchF fuel ps s ||
          (match s with
           | [] => false
           | _ :: s' => likeMatchF fuel (p :: ps) s')
      else
        match s with
        | [] => false
        | c :: s' =>
          if p = '_' then likeMatchF fuel ps s'
          else (charLowerAscii p = charLowerAscii c) && likeMatchF fuel ps s'

def likeMatch (pat s : Str) : Bool := likeMatchF (pat.length + s.length + 1) pat s

namespace App

/-- `insert into post (id, ...) values (...)`.  Modelled from the spec:
the schema file `generate.sql` is not under `src/`; §4.3 says `insert(post)`
"fails if the identifier already exists" (primary key on `id`). -/
def insert_post (db : Db) (p : Post) : Except Unit Db :=
  if db.posts.any (fun q => q.id = p.id) then .error ()
  else .ok { db with posts := db.posts ++ [p] }

/-- `insert into slug (slug, id) values (...)`.  Modelled from the spec:
the schema is not under `src/`; §4.2 says `insert(slug, postId)` "fails with
a uniqueness violation if the slug already exists" (unique slug text). -/
def insert_slug (db : Db) (s : Str) (id : Nat) : Except Unit Db :=
  if db.slugs.any (fun r => r.slug = s) then .error ()
  else .ok { db with slugs := db.slugs ++ [⟨s, id, none⟩] }

/-- `select id, newslug from slug where slug = $1` followed by
`row.newslug.unwrap_or(slug)`. -/
def get_newest_slug (db : Db) (s : Str) : Option (Nat × Str) :=
  (db.slugs.find? (fun r => r.slug = s)).map (fun r => (r.id, r.newslug.getD s))

/-- `select * from post where id = $1 limit 1`. -/
def find_post (db : Db) (id : Nat) : Option Post :=
  db.posts.find? (fun p => p.id = id)

/-- `insert into old (id, data)`: the archive keeps the full serialized
pre-update post (the JSON string is modelled by the post value itself). -/
def insert_old (db : Db) (p : Post) : Db :=
  { db with old := db.old ++ [(p.id, p)] }

/-- `update post set title, subtitle, published, content where id = $5`. -/
def update_post (db : Db) (p : Post) : Db :=
  { db with
    posts := db.posts.map (fun q =>
      if q.id = p.id then
        { q with title := p.title, subtitle := p.subtitle,
                 published := p.published, content := p.content }
      else q) }

/-- `update slug set newslug = $1 where id = $2`: every slug row of the
post, the freshly inserted canonical row included, gets the pointer. -/
def update_old_slugs (db : Db) (id : Nat) (new_slug : Str) : Db :=
  { db with
    slugs := db.slugs.map (fun r =>
      if r.id = id then { r with newslug := some new_slug } else r) }

end App

/-- One step of collecting rows into a `HashMap<Uuid, String>`: a later row
with the same key overwrites the earlier value, a fresh key is appended. -/
def insertAssoc (m : List (Nat × Str)) (k : Nat) (v : Str) : List (Nat × Str) :=
  if m.any (fun kv => kv.1 = k) then m.map (fun kv => if kv.1 = k then (k, v) else kv)
  else m ++ [(k, v)]

def lookupAssoc (m : List (Nat × Str)) (k : Nat) : Option Str :=
  (m.find? (fun kv => kv.1 = k)).map (fun kv => kv.2)

namespace App

/-- `select id, slug from slug where slug like $1` with `$1 = {slug}%`,
collected into a `HashMap<Uuid, String>` keyed by post id. -/
def find_ids_with_similar_slugs (db : Db) (s : Str) : List (Nat × Str) :=
  (db.slugs.filter (fun r => likeMatch (s ++ ['%']) r.slug)).foldl
    (fun m r => insertAssoc m r.id r.slug) []

/-- `find_ids_with_similar_slugs(..).len()`. -/
def count_ids_with_similar_slugs (db : Db) (s : Str) : Nat :=
  (find_ids_with_similar_slugs db s).length

end App

/-- The deserialized request body of publish and update. -/
structure Publish where
  title : Str
  subtitle : Option Str
  content : Str
deriving DecidableEq

/-- The `Post` value a handler assembles: fresh (or existing) id, request
fields, and `Local::now()` as the publication timestamp. -/
def mkPost (id : Nat) (tp : Publish) (now : Timestamp) : Post :=
  ⟨id, tp.title, tp.subtitle, now, tp.content⟩

/-- Forced-failure injection points for the publish transaction, one per
fallible database call in `publish_handler`. -/
structure FailPlan where
  failBegin : Bool
  failInsertPost : Bool
  failCount : Bool
  failInsertSlug : Bool
  failCommit : Bool
deriving DecidableEq

def noFail : FailPlan := ⟨false, false, false, false, false⟩

inductive PubResp where
  | ok (id : Nat) (slug : Str)
  | serverError
  | panicked
deriving DecidableEq

inductive UpdResp where
  | ok (id : Nat) (slug : Str)
  | notFound
  | serverError
  | panicked
deriving DecidableEq

inductive ReadResp where
  | page (p : Post)
  | redirect (dest : Str)
  | notFound
  | serverError
deriving DecidableEq

/-- `publish_handler`: assemble the post, and inside one transaction insert
it, compute the slug with create-path collision numbering, insert the slug
row and commit.  Any failure path returns the ORIGINAL database (the
dropped transaction rolls back) together with the 500 response; `panicked`
models the byte-slice panic inside `Post::slug`. -/
def publish_handler (db : Db) (fid : Nat) (now : Timestamp) (tp : Publish)
    (fp : FailPlan) : Db × PubResp :=
  let post := mkPost fid tp now
  if fp.failBegin then (db, .serverError) else
  match (if fp.failInsertPost then .error () else App.insert_post db post) with
  | .error _ => (db, .serverError)
  | .ok db1 =>
    match post.slug with
    | none => (db, .panicked)
    | some slug0 =>
      if fp.failCount then (db, .serverError) else
      let posts_with_slug := App.count_ids_with_similar_slugs db1 slug0
      let slug := if posts_with_slug > 0 then slug0 ++ numSuffix posts_with_slug else slug0
      match (if fp.failInsertSlug then Except.error () else App.insert_slug db1 slug post.id) with
      | .error _ => (db, .serverError)
      | .ok db2 =>
        if fp.failCommit then (db, .serverError) else (db2, .ok post.id slug)

/-- The slug-assignment block of `update_handler` (source lines 369-398):
query the similar slugs, decide between reuse and renumbering, insert the
slug only when newly minted, then retarget every slug row of the post.
Returns the database after the retarget together with the winning slug. -/
def update_slug_stage (db2 : Db) (pid : Nat) (slug0 : Str) : Except Unit (Db × Str) :=
  let ids_with_slug := App.find_ids_with_similar_slugs db2 slug0
  let renaming_to_new_slug := !(ids_with_slug.any (fun kv => kv.1 = pid))
  let slug :=
    if ids_with_slug.length > 0 && renaming_to_new_slug then
      slug0 ++ numSuffix ids_with_slug.length
    else if !renaming_to_new_slug then
      -- SAFETY comment in source: the key exists when reusing
      (lookupAssoc ids_with_slug pid).getD slug0
    else slug0
  match (if renaming_to_new_slug then App.insert_slug db2 slug pid
         else Except.ok db2) with
  | .error e => .error e
  | .ok db3 => .ok (App.update_old_slugs db3 pid slug, slug)

/-- `update_handler`: look up the post, archive the pre-image, overwrite the
row, compute the slug with update-path collision resolution (reuse an owned
similar slug, else number past the colliding set), insert the slug only
when it is newly minted, retarget all of the post's slug rows, commit. -/
def update_handler (db : Db) (target : Nat) (now : Timestamp) (tp : Publish) :
    Db × UpdResp :=
  match App.find_post db target with
  | none => (db, .notFound)
  | some existing =>
    let db1 := App.insert_old db existing
    let new_post := mkPost existing.id tp now
    let db2 := App.update_post db1 new_post
    match new_post.slug with
    | none => (db, .panicked)
    | some slug0 =>
      match update_slug_stage db2 new_post.id slug0 with
      | .error _ => (db, .serverError)
      | .ok (db4, slug) => (db4, .ok new_post.id slug)

/-- `post_handler`: resolve the slug, emit a permanent redirect when the
resolved canonical differs, otherwise fetch and render the post; a resolved
slug whose post row is missing is a 500.  Template rendering (out-of-scope
collaborator) is modelled as always succeeding. -/
def post_handler (db : Db) (slug : Str) : ReadResp :=
  match App.get_newest_slug db slug with
  | none => .notFound
  | some (id, newslug) =>
    if newslug ≠ slug then .redirect newslug
    else
      match App.find_post db id with
      | some p => .page p
      | none => .serverError

structure BasicAuthConfig where
  user : Str
  password : Str
  realm : Option Str
deriving DecidableEq

inductive AuthDecision where
  | allow
  | denied401
deriving DecidableEq

/-- `basic_auth_layer`: with no configured credentials every request is let
through; with configured credentials, only a Basic header whose username
and password both match is let through, anything else is a 401 that never
reaches the wrapped handler. -/
def basic_auth_layer (cfg : Option BasicAuthConfig) (creds : Option (Str × Str)) :
    AuthDecision :=
  match cfg, creds with
  | some c, some (u, p) => if u = c.user ∧ p = c.password then .allow else .denied401
  | some _, none => .denied401
  | none, _ => .allow

/-- Spec-side definition for the `countSimilar` claim, following §4.2's
words: the number of existing slug rows whose text starts with the
candidate as a literal, case-sensitive prefix, each row counted once. -/
def spec_countSimilar (db : Db) (cand : Str) : Nat :=
  (db.slugs.filter (fun r => cand.isPrefixOf r.slug)).length

/-- The expected `i`-th slug in a run of same-title publishes:
`base` itself first, then `base-1`, `base-2`, ... -/
def nthSlug (base : Str) (i : Nat) : Str :=
  if i = 0 then base else base ++ numSuffix i

/-- Iterated publishing: `pubIter tp ts n` runs `n` publish requests with
the same body and timestamp against an initially empty database, using the
fresh ids `0, 1, ...`, and collects the assigned slugs in creation order. -/
def pubIter (tp : Publish) (ts : Timestamp) : Nat → Db × List Str
  | 0 => (emptyDb, [])
  | n + 1 =>
    let prev := pubIter tp ts n
    match publish_handler prev.1 n ts tp noFail with
    | (db', PubResp.ok _ s) => (db', prev.2 ++ [s])
    | (db', _) => (db', prev.2)

/-- One-hop resolution of a slug row: the superseded-by pointer if set,
otherwise the row's own slug (exactly `newslug.unwrap_or(slug)`). -/
def resolveSlug (r : SlugRow) : Str := r.newslug.getD r.slug

/-- One-hop invariant on a slug table: slug texts are unique, and for every
post all of its rows resolve (in one hop) to one common slug which is
itself one of the post's rows. -/
def OneHopRows (l : List SlugRow) : Prop :=
  (l.map (fun r => r.slug)).Nodup ∧
  ∀ r0 ∈ l, ∀ r ∈ l, r.id = r0.id →
    resolveSlug r = resolveSlug r0 ∧
    ∃ rc ∈ l, rc.id = r0.id ∧ rc.slug = resolveSlug r0

def OneHopInv (db : Db) : Prop := OneHopRows db.slugs

instance (l : List SlugRow) : Decidable (OneHopRows l) := by
  unfold OneHopRows
  infer_instance

instance (db : Db) : Decidable (OneHopInv db) := by
  unfold OneHopInv
  infer_instance

/- Shared concrete fixtures for witnesses and counterexamples. -/

def tpA : Publish := ⟨"a".toList, none, "x".toList⟩

def tpB : Publish := ⟨"b".toList, none, "y".toList⟩

def ts0 : Timestamp := ⟨2024, 3, 5, 0⟩

def ts1 : Timestamp := ⟨2024, 3, 6, 0⟩

/-- The database after one publish of `tpA` at `ts0` (post id 0). -/
def dbPub : Db := (publish_handler emptyDb 0 ts0 tpA noFail).1

/-- A database with one post reachable through a retired and a canonical
slug, as left behind by a title-changing update. -/
def dbRead : Db :=
  ⟨[⟨1, "t".toList, none, ts0, "c".toList⟩],
   [⟨"old1".toList, 1, some "new1".toList⟩, ⟨"new1".toList, 1, some "new1".toList⟩],
   []⟩

/-- A corrupt database: a slug row whose owning post row is missing. -/
def dbCorrupt : Db := ⟨[], [⟨"s5".toList, 5, none⟩], []⟩

/-! ## Decimal-digit lemmas -/

theorem mkPost_id (i : Nat) (tp : Publish) (ts : Timestamp) : (mkPost i tp ts).id = i := rfl

theorem digitChar_toNat (n : Nat) (h : n < 10) : (digitChar n).toNat = 48 + n := by
  interval_cases n <;> rfl

theorem natDigitsAux_val (fuel : Nat) :
    ∀ n a : Nat, n < fuel →
      (natDigitsAux fuel n).foldl (fun acc c => acc * 10 + (c.toNat - 48)) a
        = a * 10 ^ (natDigitsAux fuel n).length + n := by
  induction fuel with
  | zero => intro n a h; omega
  | succ f ih =>
    intro n a h
    by_cases h10 : n < 10
    · simp [natDigitsAux, h10, digitChar_toNat n h10]
    · have hdiv : n / 10 < n := Nat.div_lt_self (by omega) (by omega)
      have hlt : n / 10 < f := by omega
      simp only [natDigitsAux, if_neg h10, List.foldl_append, List.length_append,
        List.foldl_cons, List.foldl_nil, List.length_cons, List.length_nil]
      rw [ih (n / 10) a hlt]
      have hmod : n % 10 < 10 := Nat.mod_lt _ (by omega)
      rw [digitChar_toNat _ hmod]
      have : (48 + n % 10) - 48 = n % 10 := by omega
      rw [this, pow_succ]
      have := Nat.div_add_mod n 10
      ring_nf
      omega

theorem natDigits_val (n : Nat) :
    (natDigits n).foldl (fun acc c => acc * 10 + (c.toNat - 48)) 0 = n := by
  have := natDigitsAux_val (n + 1) n 0 (Nat.lt_succ_self n)
  simpa [natDigits] using this

theorem natDigits_inj {m n : Nat} (h : natDigits m = natDigits n) : m = n := by
  have hm := natDigits_val m
  have hn := natDigits_val n
  rw [h] at hm
  omega

theorem natDigits_ne_nil (n : Nat) : natDigits n ≠ [] := by
  unfold natDigits natDigitsAux
  by_cases h : n < 10 <;> simp [h]

theorem nthSlug_injective (base : Str) : Function.Injective (nthSlug base) := by
  intro i j h
  unfold nthSlug at h
  by_cases hi : i = 0 <;> by_cases hj : j = 0
  · omega
  · rw [if_pos hi, if_neg hj] at h
    exact absurd (congrArg List.length h) (by simp [numSuffix])
  · rw [if_neg hi, if_pos hj] at h
    exact absurd (congrArg List.length h) (by simp [numSuffix])
  · rw [if_neg hi, if_neg hj] at h
    have h2 := List.append_cancel_left h
    simp only [numSuffix, List.cons.injEq, true_and] at h2
    exact natDigits_inj h2

theorem nthSlug_eq_append (base : Str) (i : Nat) :
    nthSlug base i = base ++ (if i = 0 then [] else numSuffix i) := by
  by_cases h : i = 0 <;> simp [nthSlug, h]

/-! ## `LIKE` lemmas -/

theorem likeMatchF_pct (fuel : Nat) :
    ∀ t : Str, t.length + 2 ≤ fuel → likeMatchF fuel ['%'] t = true := by
  induction fuel with
  | zero => intro t h; omega
  | succ f ih =>
    intro t h
    cases t with
    | nil =>
      obtain ⟨f', rfl⟩ : ∃ f', f = f' + 1 := ⟨f - 1, by omega⟩
      simp [likeMatchF]
    | cons c t' =>
      have h2 := ih t' (by simp at h ⊢; omega)
      simp [likeMatchF, h2]

theorem likeMatchF_append_pct :
    ∀ (base : Str) (fuel : Nat) (t : Str), 2 * base.length + t.length + 2 ≤ fuel →
      likeMatchF fuel (base ++ ['%']) (base ++ t) = true := by
  intro base
  induction base with
  | nil =>
    intro fuel t h
    simpa using likeMatchF_pct fuel t (by simpa using h)
  | cons c bs ih =>
    intro fuel t h
    simp only [List.length_cons] at h
    obtain ⟨f, rfl⟩ : ∃ f, fuel = f + 1 := ⟨fuel - 1, by omega⟩
    by_cases hc : c = '%'
    · subst hc
      obtain ⟨f', rfl⟩ : ∃ f', f = f' + 1 := ⟨f - 1, by omega⟩
      have h2 := ih f' t (by omega)
      simp [likeMatchF, h2]
    · by_cases hu : c = '_'
      · subst hu
        have h2 := ih f t (by omega)
        simp [likeMatchF, h2]
      · have h2 := ih f t (by omega)
        simp [likeMatchF, hc, hu, h2]

/-- A string extending the candidate matches the candidate's `LIKE`
pattern `candidate ++ "%"`. -/
theorem likeMatch_append (base t : Str) :
    likeMatch (base ++ ['%']) (base ++ t) = true := by
  apply likeMatchF_append_pct
  simp [likeMatch]
  omega

/-! ## Association-map lemmas -/

theorem insertAssoc_fresh (m : List (Nat × Str)) (k : Nat) (v : Str)
    (h : ∀ kv ∈ m, kv.1 ≠ k) : insertAssoc m k v = m ++ [(k, v)] := by
  unfold insertAssoc
  have hany : m.any (fun kv => kv.1 = k) = false := by
    simp only [List.any_eq_false, decide_eq_true_eq]
    exact h
  simp [hany]

theorem insertAssoc_keys_nodup (m : List (Nat × Str)) (k : Nat) (v : Str)
    (h : (m.map Prod.fst).Nodup) : ((insertAssoc m k v).map Prod.fst).Nodup := by
  unfold insertAssoc
  split
  · have : (m.map (fun kv => if kv.1 = k then (k, v) else kv)).map Prod.fst
        = m.map Prod.fst := by
      rw [List.map_map]
      apply List.map_congr_left
      intro kv _
      by_cases hk : kv.1 = k <;> simp [hk]
    rw [this]
    exact h
  · rename_i hany
    simp only [List.any_eq_true, not_exists, not_and] at hany
    simp only [List.map_append, List.map_cons, List.map_nil]
    rw [List.nodup_append]
    refine ⟨h, List.nodup_singleton _, ?_⟩
    intro x hx
    simp only [List.mem_singleton]
    intro hxk
    subst hxk
    obtain ⟨kv, hkv, hfst⟩ := List.mem_map.1 hx
    exact hany kv hkv (by simp [hfst])

theorem insertAssoc_keys_toFinset (m : List (Nat × Str)) (k : Nat) (v : Str) :
    ((insertAssoc m k v).map Prod.fst).toFinset = insert k (m.map Prod.fst).toFinset := by
  unfold insertAssoc
  split
  · rename_i hany
    have hkeys : (m.map (fun kv => if kv.1 = k then (k, v) else kv)).map Prod.fst
        = m.map Prod.fst := by
      rw [List.map_map]
      apply List.map_congr_left
      intro kv _
      by_cases hk : kv.1 = k <;> simp [hk]
    rw [hkeys]
    simp only [List.any_eq_true] at hany
    obtain ⟨kv, hkv, hk⟩ := hany
    have : k ∈ (m.map Prod.fst).toFinset := by
      rw [List.mem_toFinset]
      exact List.mem_map.2 ⟨kv, hkv, by simpa using hk⟩
    rw [Finset.insert_eq_self.2 this]
  · simp [Finset.insert_eq, Finset.union_comm]

theorem foldl_insertAssoc_length (rows : List SlugRow) :
    ∀ m : List (Nat × Str), (m.map Prod.fst).Nodup →
      (rows.foldl (fun m r => insertAssoc m r.id r.slug) m).length
        = ((m.map Prod.fst).toFinset ∪ (rows.map (fun r => r.id)).toFinset).card := by
  induction rows with
  | nil =>
    intro m hm
    simp [List.toFinset_card_of_nodup hm]
  | cons r rows ih =>
    intro m hm
    rw [List.foldl_cons, ih _ (insertAssoc_keys_nodup m r.id r.slug hm),
      insertAssoc_keys_toFinset]
    congr 1
    simp only [List.map_cons, List.toFinset_cons]
    rw [Finset.insert_union, Finset.union_insert]

theorem insertAssoc_mem (m : List (Nat × Str)) (k : Nat) (v : Str) (kv : Nat × Str)
    (h : kv ∈ insertAssoc m k v) : kv ∈ m ∨ kv = (k, v) := by
  unfold insertAssoc at h
  split at h
  · obtain ⟨kv', hkv', heq⟩ := List.mem_map.1 h
    by_cases hk : kv'.1 = k
    · right; rw [← heq]; simp [hk]
    · left; rw [← heq]; simpa [hk] using hkv'
  · rcases List.mem_append.1 h with h1 | h1
    · exact Or.inl h1
    · exact Or.inr (by simpa using h1)

theorem foldl_insertAssoc_mem (rows : List SlugRow) :
    ∀ (m : List (Nat × Str)) (kv : Nat × Str),
      kv ∈ rows.foldl (fun m r => insertAssoc m r.id r.slug) m →
      kv ∈ m ∨ ∃ r ∈ rows, r.id = kv.1 ∧ r.slug = kv.2 := by
  induction rows with
  | nil => intro m kv h; exact Or.inl h
  | cons r rows ih =>
    intro m kv h
    rw [List.foldl_cons] at h
    rcases ih _ kv h with h1 | ⟨r', hr', hid, hslug⟩
    · rcases insertAssoc_mem m r.id r.slug kv h1 with h2 | h2
      · exact Or.inl h2
      · exact Or.inr ⟨r, by simp, by simp [h2], by simp [h2]⟩
    · exact Or.inr ⟨r', by simp [hr'], hid, hslug⟩

/-- A successful `lookupAssoc` on the collected similar-slug map names a
slug text that one of the matching rows of that post actually has. -/
theorem lookupAssoc_find_ids (db : Db) (s : Str) (k : Nat) (v : Str)
    (h : lookupAssoc (App.find_ids_with_similar_slugs db s) k = some v) :
    ∃ r ∈ db.slugs, r.id = k ∧ r.slug = v := by
  unfold lookupAssoc at h
  obtain ⟨kv, hfind, hv⟩ := Option.map_eq_some'.1 h
  have hmem := List.mem_of_find?_eq_some hfind
  have hpred := List.find?_some hfind
  have hk : kv.1 = k := by simpa using hpred
  rcases foldl_insertAssoc_mem _ _ _ hmem with h1 | ⟨r, hr, hid, hslug⟩
  · simp at h1
  · exact ⟨r, List.mem_of_mem_filter hr, by omega, by rw [hslug, hv]⟩

theorem lookupAssoc_isSome_of_any (m : List (Nat × Str)) (k : Nat)
    (h : m.any (fun kv => kv.1 = k) = true) :
    (lookupAssoc m k).isSome = true := by
  unfold lookupAssoc
  rcases hfind : m.find? (fun kv => kv.1 = k) with _ | kv'
  · exfalso
    simp only [List.any_eq_true] at h
    obtain ⟨kv, hkv, hk⟩ := h
    exact List.find?_eq_none.1 hfind kv hkv hk
  · simp [hfind]

/-! ## Post-table lemmas -/

theorem find?_map_update (l : List Post) (p : Post)
    (h : (l.find? (fun q => q.id = p.id)).isSome = true) :
    (l.map (fun q =>
      if q.id = p.id then
        { q with title := p.title, subtitle := p.subtitle,
                 published := p.published, content := p.content }
      else q)).find? (fun q => q.id = p.id) = some p := by
  induction l with
  | nil => simp at h
  | cons q l ih =>
    by_cases hq : q.id = p.id
    · simp only [List.map_cons, if_pos hq]
      rw [List.find?_cons_of_pos _ (by simpa using hq)]
      congr 1
      cases p with
      | mk pid ptitle psub ppub pcontent =>
        simp at hq ⊢
        exact hq
    · simp only [List.map_cons, if_neg hq]
      rw [List.find?_cons_of_neg _ (by simpa using hq)]
      rw [List.find?_cons_of_neg _ (by simpa using hq)] at h
      exact ih h

theorem find_post_update_post (db : Db) (p : Post)
    (h : (App.find_post db p.id).isSome = true) :
    App.find_post (App.update_post db p) p.id = some p :=
  find?_map_update db.posts p h

/-! ## Operation-result characterizations -/

theorem insert_post_ok {db db' : Db} {p : Post}
    (h : App.insert_post db p = Except.ok db') :
    db' = { db with posts := db.posts ++ [p] } := by
  unfold App.insert_post at h
  split at h
  · exact absurd h (by simp)
  · injection h with h2
    exact h2.symm

theorem insert_slug_ok {db db' : Db} {s : Str} {id : Nat}
    (h : App.insert_slug db s id = Except.ok db') :
    db' = { db with slugs := db.slugs ++ [⟨s, id, none⟩] }
      ∧ ∀ r ∈ db.slugs, r.slug ≠ s := by
  unfold App.insert_slug at h
  split at h
  · exact absurd h (by simp)
  · rename_i hany
    refine ⟨by injection h with h2; exact h2.symm, ?_⟩
    intro r hr
    simp only [Bool.not_eq_true, List.any_eq_false, decide_eq_true_eq] at hany
    exact hany r hr

/-- Everything `update_slug_stage` can do on success: the result is a
retarget (to the winning slug) of the intermediate table, which is either
unchanged (reuse of an owned slug) or extended by exactly the one new
canonical row. -/
theorem update_slug_stage_ok {db2 : Db} {pid : Nat} {slug0 : Str} {db4 : Db} {slug : Str}
    (h : update_slug_stage db2 pid slug0 = Except.ok (db4, slug)) :
    ∃ db3 : Db,
      db4 = App.update_old_slugs db3 pid slug
      ∧ db3.posts = db2.posts ∧ db3.old = db2.old
      ∧ ((db3.slugs = db2.slugs ∧ ∃ r ∈ db2.slugs, r.id = pid ∧ r.slug = slug)
         ∨ (db3.slugs = db2.slugs ++ [⟨slug, pid, none⟩]
            ∧ ∀ r ∈ db2.slugs, r.slug ≠ slug)) := by
  unfold update_slug_stage at h
  by_cases hrn : ((App.find_ids_with_similar_slugs db2 slug0).any fun kv => kv.1 = pid) = true
  · -- the post owns a similar slug: reuse, no insertion
    simp only [hrn, Bool.not_true, Bool.and_false, Bool.false_eq_true, if_false,
      Bool.not_false, if_true] at h
    rw [Except.ok.injEq, Prod.mk.injEq] at h
    obtain ⟨hdb4, hslug⟩ := h
    have hlk : (lookupAssoc (App.find_ids_with_similar_slugs db2 slug0) pid).isSome = true :=
      lookupAssoc_isSome_of_any _ pid hrn
    obtain ⟨v, hv⟩ := Option.isSome_iff_exists.1 hlk
    refine ⟨db2, ?_, rfl, rfl, Or.inl ⟨rfl, ?_⟩⟩
    · rw [← hdb4, hslug]
    · have hmem := lookupAssoc_find_ids db2 slug0 pid v hv
      rw [← hslug, hv]
      simpa using hmem
  · -- newly minted slug: insertion happened
    have hrn' : ((App.find_ids_with_similar_slugs db2 slug0).any fun kv => kv.1 = pid) = false :=
      Bool.eq_false_iff.mpr hrn
    simp only [hrn', Bool.not_false, Bool.and_true, if_true, Bool.true_eq_false,
      Bool.not_true, Bool.false_eq_true, if_false] at h
    split at h
    · exact absurd h (by simp)
    · rename_i db3 heq
      rw [Except.ok.injEq, Prod.mk.injEq] at h
      obtain ⟨hdb4, hslug⟩ := h
      obtain ⟨hins2, hfresh⟩ := insert_slug_ok heq
      rw [hslug] at hins2 hfresh hdb4
      exact ⟨db3, hdb4.symm, by rw [hins2], by rw [hins2],
        Or.inr ⟨by rw [hins2], hfresh⟩⟩

theorem find_post_posts_eq (db db' : Db) (h : db.posts = db'.posts) (id : Nat) :
    App.find_post db id = App.find_post db' id := by
  unfold App.find_post
  rw [h]

theorem update_old_slugs_slug_id (db : Db) (pid : Nat) (s : Str) :
    (App.update_old_slugs db pid s).slugs.map (fun r => (r.slug, r.id))
      = db.slugs.map (fun r => (r.slug, r.id)) := by
  unfold App.update_old_slugs
  simp only [List.map_map]
  apply List.map_congr_left
  intro r _
  by_cases hr : r.id = pid <;> simp [hr]

theorem update_old_slugs_texts (db : Db) (pid : Nat) (s : Str) :
    (App.update_old_slugs db pid s).slugs.map (fun r => r.slug)
      = db.slugs.map (fun r => r.slug) := by
  unfold App.update_old_slugs
  simp only [List.map_map]
  apply List.map_congr_left
  intro r _
  by_cases hr : r.id = pid <;> simp [hr]

theorem update_old_slugs_newslug (db : Db) (pid : Nat) (s : Str) :
    ∀ r ∈ (App.update_old_slugs db pid s).slugs, r.id = pid → r.newslug = some s := by
  unfold App.update_old_slugs
  intro r hr hid
  obtain ⟨a, ha, rfl⟩ := List.mem_map.1 hr
  by_cases h : a.id = pid
  · simp [h]
  · simp only [if_neg h] at hid ⊢
    exact absurd hid h

/-- Characterization of every successful update: the response carries the
target id, the archive gained exactly the pre-image, and the post row holds
exactly the new field values with `published` re-set to the update time. -/
theorem update_ok_spec (db : Db) (target : Nat) (now : Timestamp) (tp : Publish)
    (e : Post) (i : Nat) (s : Str)
    (he : App.find_post db target = some e)
    (h : (update_handler db target now tp).2 = UpdResp.ok i s) :
    i = target
    ∧ (update_handler db target now tp).1.old = db.old ++ [(target, e)]
    ∧ App.find_post (update_handler db target now tp).1 target
        = some (mkPost target tp now) := by
  have hid : e.id = target := by simpa using List.find?_some he
  subst hid
  cases hslug : Post.slug (mkPost e.id tp now) with
  | none =>
    exfalso
    simp only [update_handler, he, hslug] at h
    exact absurd h (by simp)
  | some slug0 =>
    cases hstage : update_slug_stage
        (App.update_post (App.insert_old db e) (mkPost e.id tp now))
        (mkPost e.id tp now).id slug0 with
    | error u =>
      exfalso
      simp only [update_handler, he, hslug, hstage] at h
      exact absurd h (by simp)
    | ok pr =>
      obtain ⟨db4, slug⟩ := pr
      simp only [update_handler, he, hslug, hstage] at h ⊢
      obtain ⟨hi, -⟩ : i = (mkPost e.id tp now).id ∧ s = slug := by
        have := h.symm
        simpa [UpdResp.ok.injEq] using this
      obtain ⟨db3, hdb4, hposts, hold, -⟩ := update_slug_stage_ok hstage
      subst hdb4
      constructor
      · simpa [mkPost] using hi
      constructor
      · show (App.update_old_slugs db3 _ slug).old = _
        have : (App.update_old_slugs db3 (mkPost e.id tp now).id slug).old = db3.old := rfl
        rw [this, hold]
        simp [App.update_post, App.insert_old, mkPost]
      · have hposts4 : (App.update_old_slugs db3 (mkPost e.id tp now).id slug).posts
            = db3.posts := rfl
        rw [find_post_posts_eq _ (App.update_post (App.insert_old db e)
          (mkPost e.id tp now)) (by rw [hposts4, hposts]) e.id]
        have hfind1 : App.find_post (App.insert_old db e) (mkPost e.id tp now).id
            = some e := by
          show App.find_post db e.id = some e
          exact he
        exact find_post_update_post (App.insert_old db e) (mkPost e.id tp now)
          (by rw [hfind1]; rfl)

/-- Characterization of the reuse branch of an update: when the post being
updated already owns one of the similar slugs, that exact slug is returned,
no slug row is inserted, and the retarget step points every slug row of the
post (the reused canonical row itself included) at the reused slug. -/
theorem update_reuse_spec (db : Db) (target : Nat) (now : Timestamp) (tp : Publish)
    (e : Post) (slug0 owned : Str)
    (he : App.find_post db target = some e)
    (hslug : Post.slug (mkPost e.id tp now) = some slug0)
    (hlk : lookupAssoc (App.find_ids_with_similar_slugs db slug0) e.id = some owned) :
    (update_handler db target now tp).2 = UpdResp.ok e.id owned
    ∧ (update_handler db target now tp).1.slugs.map (fun r => (r.slug, r.id))
        = db.slugs.map (fun r => (r.slug, r.id))
    ∧ (∃ rr ∈ db.slugs, rr.id = e.id ∧ rr.slug = owned)
    ∧ ∀ r ∈ (update_handler db target now tp).1.slugs,
        r.id = e.id → r.newslug = some owned := by
  have hids : App.find_ids_with_similar_slugs
      (App.update_post (App.insert_old db e) (mkPost e.id tp now)) slug0
      = App.find_ids_with_similar_slugs db slug0 := rfl
  have hany : ((App.find_ids_with_similar_slugs db slug0).any
      fun kv => kv.1 = e.id) = true := by
    unfold lookupAssoc at hlk
    obtain ⟨kv, hfind, -⟩ := Option.map_eq_some'.1 hlk
    have hp := List.find?_some hfind
    exact List.any_eq_true.2 ⟨kv, List.mem_of_find?_eq_some hfind, hp⟩
  have hstage : update_slug_stage
      (App.update_post (App.insert_old db e) (mkPost e.id tp now))
      (mkPost e.id tp now).id slug0
      = Except.ok (App.update_old_slugs
          (App.update_post (App.insert_old db e) (mkPost e.id tp now))
          (mkPost e.id tp now).id owned, owned) := by
    unfold update_slug_stage
    rw [hids]
    have hpid : (mkPost e.id tp now).id = e.id := rfl
    rw [hpid]
    simp [hany, hlk]
  simp only [update_handler, he, hslug, hstage]
  refine ⟨rfl, ?_, ?_, ?_⟩
  · rw [update_old_slugs_slug_id]
    rfl
  · exact lookupAssoc_find_ids db slug0 e.id owned hlk
  · exact update_old_slugs_newslug _ _ _

/-- Every publish either leaves the database untouched (any failure: the
transaction is dropped) or commits exactly one new post row and one new
slug row whose text was not present before. -/
theorem publish_cases (db : Db) (fid : Nat) (now : Timestamp) (tp : Publish)
    (fp : FailPlan) :
    (publish_handler db fid now tp fp).1 = db
    ∨ ∃ slug : Str,
        (∀ r ∈ db.slugs, r.slug ≠ slug)
        ∧ (publish_handler db fid now tp fp).1
            = { posts := db.posts ++ [mkPost fid tp now],
                slugs := db.slugs ++ [⟨slug, fid, none⟩],
                old := db.old } := by
  unfold publish_handler
  by_cases hb : fp.failBegin = true
  · simp [hb]
  · rw [if_neg hb]
    by_cases hip : fp.failInsertPost = true
    · simp [hip]
    · rw [if_neg hip]
      cases hipost : App.insert_post db (mkPost fid tp now) with
      | error u => simp
      | ok db1 =>
        have hdb1 := insert_post_ok hipost
        subst hdb1
        cases hslug : Post.slug (mkPost fid tp now) with
        | none => simp
        | some slug0 =>
          simp only []
          by_cases hc : fp.failCount = true
          · simp [hc]
          · rw [if_neg hc]
            by_cases his : fp.failInsertSlug = true
            · simp [his]
            · rw [if_neg his]
              set n := App.count_ids_with_similar_slugs
                { posts := db.posts ++ [mkPost fid tp now], slugs := db.slugs,
                  old := db.old } slug0 with hn
              set s1 := if n > 0 then slug0 ++ numSuffix n else slug0 with hs1
              cases hins : App.insert_slug
                  { posts := db.posts ++ [mkPost fid tp now], slugs := db.slugs,
                    old := db.old } s1 (mkPost fid tp now).id with
              | error u => simp
              | ok db2 =>
                obtain ⟨hdb2, hfresh⟩ := insert_slug_ok hins
                subst hdb2
                by_cases hcm : fp.failCommit = true
                · simp [hcm]
                · right
                  refine ⟨s1, hfresh, ?_⟩
                  simp [hcm, mkPost]

/-! ## One-hop invariant preservation -/

theorem retarget_id (pid : Nat) (s : Str) (r : SlugRow) :
    ((if r.id = pid then { r with newslug := some s } else r) : SlugRow).id = r.id := by
  by_cases h : r.id = pid <;> simp [h]

theorem retarget_slug (pid : Nat) (s : Str) (r : SlugRow) :
    ((if r.id = pid then { r with newslug := some s } else r) : SlugRow).slug = r.slug := by
  by_cases h : r.id = pid <;> simp [h]

/-- Retargeting every row of `pid` to a slug text `s` that `pid` actually
owns restores the one-hop invariant, provided slug texts are unique and the
rows of every other post already satisfy it. -/
theorem oneHopRows_retarget (l : List SlugRow) (pid : Nat) (s : Str)
    (hnd : (l.map (fun r => r.slug)).Nodup)
    (hother : ∀ r0 ∈ l, r0.id ≠ pid → ∀ r ∈ l, r.id = r0.id →
        resolveSlug r = resolveSlug r0
        ∧ ∃ rc ∈ l, rc.id = r0.id ∧ rc.slug = resolveSlug r0)
    (hown : ∃ rr ∈ l, rr.id = pid ∧ rr.slug = s) :
    OneHopRows (l.map (fun r => if r.id = pid then { r with newslug := some s } else r)) := by
  constructor
  · have : (l.map (fun r => if r.id = pid then { r with newslug := some s } else r)).map
        (fun r => r.slug) = l.map (fun r => r.slug) := by
      rw [List.map_map]
      apply List.map_congr_left
      intro r _
      exact retarget_slug pid s r
    rw [this]
    exact hnd
  · intro r0 hr0 r hr hid
    obtain ⟨a0, ha0, rfl⟩ := List.mem_map.1 hr0
    obtain ⟨a, ha, rfl⟩ := List.mem_map.1 hr
    rw [retarget_id, retarget_id] at hid
    by_cases h0 : a0.id = pid
    · have hA0 : (if a0.id = pid then { a0 with newslug := some s } else a0) =
          { a0 with newslug := some s } := if_pos h0
      have hA : (if a.id = pid then { a with newslug := some s } else a) =
          { a with newslug := some s } := if_pos (by rw [hid]; exact h0)
      obtain ⟨rr, hrr, hrid, hrs⟩ := hown
      refine ⟨by rw [hA0, hA]; rfl, ?_⟩
      refine ⟨{ rr with newslug := some s }, List.mem_map.2 ⟨rr, hrr, if_pos hrid⟩, ?_, ?_⟩
      · show rr.id = _
        rw [retarget_id, hrid, h0]
      · show rr.slug = _
        rw [hA0, hrs]
        rfl
    · have hA0 : (if a0.id = pid then { a0 with newslug := some s } else a0) = a0 :=
        if_neg h0
      have hA : (if a.id = pid then { a with newslug := some s } else a) = a :=
        if_neg (by rw [hid]; exact h0)
      obtain ⟨heq, rc, hrc, hrcid, hrcs⟩ := hother a0 ha0 h0 a ha hid
      refine ⟨by rw [hA0, hA]; exact heq, ?_⟩
      have hfc : (if rc.id = pid then { rc with newslug := some s } else rc) = rc :=
        if_neg (by rw [hrcid]; exact h0)
      refine ⟨rc, ?_, ?_, ?_⟩
      · exact List.mem_map.2 ⟨rc, hrc, hfc⟩
      · rw [retarget_id, hrcid]
      · rw [hA0, hrcs]

/-- Appending a canonical row for a fresh post id with a fresh slug text
preserves the one-hop invariant. -/
theorem oneHopRows_append_fresh (l : List SlugRow) (s : Str) (fid : Nat)
    (hinv : OneHopRows l)
    (hfresh : ∀ r ∈ l, r.id ≠ fid)
    (hs : ∀ r ∈ l, r.slug ≠ s) :
    OneHopRows (l ++ [⟨s, fid, none⟩]) := by
  obtain ⟨hnd, hcl⟩ := hinv
  constructor
  · rw [List.map_append]
    rw [List.nodup_append]
    refine ⟨hnd, by simp, ?_⟩
    intro x hx
    simp only [List.map_cons, List.map_nil, List.mem_singleton]
    intro hxs
    subst hxs
    obtain ⟨r, hr, hrs⟩ := List.mem_map.1 hx
    exact hs r hr hrs
  · intro r0 hr0 r hr hid
    rcases List.mem_append.1 hr0 with h0 | h0
    · have hid0 : r0.id ≠ fid := hfresh r0 h0
      rcases List.mem_append.1 hr with h1 | h1
      · obtain ⟨heq, rc, hrc, hrcid, hrcs⟩ := hcl r0 h0 r h1 hid
        exact ⟨heq, rc, List.mem_append.2 (Or.inl hrc), hrcid, hrcs⟩
      · exfalso
        have : r = ⟨s, fid, none⟩ := by simpa using h1
        rw [this] at hid
        exact hid0 hid.symm
    · have hr0eq : r0 = ⟨s, fid, none⟩ := by simpa using h0
      subst hr0eq
      rcases List.mem_append.1 hr with h1 | h1
      · exact absurd hid (hfresh r h1)
      · have hreq : r = ⟨s, fid, none⟩ := by simpa using h1
        subst hreq
        exact ⟨rfl, ⟨s, fid, none⟩, List.mem_append.2 (Or.inr (by simp)), rfl, rfl⟩

/-- Publishing with a fresh post id preserves the one-hop invariant (any
failed publish leaves the database untouched). -/
theorem oneHopInv_publish (db : Db) (fid : Nat) (now : Timestamp) (tp : Publish)
    (fp : FailPlan) (hinv : OneHopInv db) (hfresh : ∀ r ∈ db.slugs, r.id ≠ fid) :
    OneHopInv (publish_handler db fid now tp fp).1 := by
  rcases publish_cases db fid now tp fp with h | ⟨slug, hs, h⟩
  · rw [h]; exact hinv
  · rw [h]
    exact oneHopRows_append_fresh db.slugs slug fid hinv hfresh hs

/-- Updating preserves the one-hop invariant: failed updates touch nothing,
a reuse retargets to an owned slug, and a mint inserts the new canonical
row before retargeting to it. -/
theorem oneHopInv_update (db : Db) (target : Nat) (now : Timestamp) (tp : Publish)
    (hinv : OneHopInv db) :
    OneHopInv (update_handler db target now tp).1 := by
  cases he : App.find_post db target with
  | none => simp only [update_handler, he]; exact hinv
  | some e =>
    cases hslug : Post.slug (mkPost e.id tp now) with
    | none => simp only [update_handler, he, hslug]; exact hinv
    | some slug0 =>
      cases hstage : update_slug_stage
          (App.update_post (App.insert_old db e) (mkPost e.id tp now))
          (mkPost e.id tp now).id slug0 with
      | error u => simp only [update_handler, he, hslug, hstage]; exact hinv
      | ok pr =>
        obtain ⟨db4, slug⟩ := pr
        simp only [update_handler, he, hslug, hstage]
        obtain ⟨db3, hdb4, hposts, hold, hcase⟩ := update_slug_stage_ok hstage
        subst hdb4
        show OneHopRows (App.update_old_slugs db3 (mkPost e.id tp now).id slug).slugs
        have hslugs2 : (App.update_post (App.insert_old db e) (mkPost e.id tp now)).slugs
            = db.slugs := rfl
        rcases hcase with ⟨hsl, rr, hrr, hrid, hrs⟩ | ⟨hsl, hfresh⟩
        · -- reuse of an owned slug
          rw [hslugs2] at hsl hrr
          show OneHopRows (db3.slugs.map (fun r =>
            if r.id = (mkPost e.id tp now).id then { r with newslug := some slug } else r))
          rw [hsl]
          apply oneHopRows_retarget
          · exact hinv.1
          · intro r0 h0 hne r h1 hid
            exact hinv.2 r0 h0 r h1 hid
          · exact ⟨rr, hrr, hrid, hrs⟩
        · -- newly minted slug
          rw [hslugs2] at hsl hfresh
          show OneHopRows (db3.slugs.map (fun r =>
            if r.id = (mkPost e.id tp now).id then { r with newslug := some slug } else r))
          rw [hsl]
          apply oneHopRows_retarget
          · rw [List.map_append]
            rw [List.nodup_append]
            refine ⟨hinv.1, by simp, ?_⟩
            intro x hx
            simp only [List.map_cons, List.map_nil, List.mem_singleton]
            intro hxs
            subst hxs
            obtain ⟨r, hr, hrs⟩ := List.mem_map.1 hx
            exact hfresh r hr hrs
          · intro r0 h0 hne r h1 hid
            rcases List.mem_append.1 h0 with h0' | h0'
            · rcases List.mem_append.1 h1 with h1' | h1'
              · obtain ⟨heq, rc, hrc, hrcid, hrcs⟩ := hinv.2 r0 h0' r h1' hid
                exact ⟨heq, rc, List.mem_append.2 (Or.inl hrc), hrcid, hrcs⟩
              · exfalso
                have : r = ⟨slug, (mkPost e.id tp now).id, none⟩ := by simpa using h1'
                rw [this] at hid
                exact hne (by rw [← hid])
            · exfalso
              have : r0 = ⟨slug, (mkPost e.id tp now).id, none⟩ := by simpa using h0'
              rw [this] at hne
              exact hne rfl
          · exact ⟨⟨slug, (mkPost e.id tp now).id, none⟩,
              List.mem_append.2 (Or.inr (by simp)), rfl, rfl⟩

theorem countP_eq_le_one_of_nodup {α : Type} [DecidableEq α] (xs : List α)
    (hnd : xs.Nodup) (c : α) : xs.countP (fun t => decide (t = c)) ≤ 1 := by
  induction xs with
  | nil => simp
  | cons x xs ih =>
    rw [List.countP_cons]
    rcases List.nodup_cons.1 hnd with ⟨hx, hnd'⟩
    by_cases hxc : x = c
    · subst hxc
      have hz : xs.countP (fun t => decide (t = x)) = 0 := by
        rw [List.countP_eq_zero]
        intro t ht
        simp only [decide_eq_true_eq]
        intro hh
        subst hh
        exact hx ht
      simp [hz]
    · simp [hxc, ih hnd']

/-- Under the one-hop invariant a post with at least one slug row has
exactly one self-resolving (canonical) row. -/
theorem oneHopRows_unique_canonical (l : List SlugRow) (hinv : OneHopRows l)
    (pid : Nat) (r1 : SlugRow) (h1 : r1 ∈ l) (hid : r1.id = pid) :
    (l.filter (fun r => r.id = pid ∧ resolveSlug r = r.slug)).length = 1 := by
  obtain ⟨hnd, hcl⟩ := hinv
  obtain ⟨-, rc, hrc, hrcid, hrcs⟩ := hcl r1 h1 r1 h1 rfl
  have hrc_res : resolveSlug rc = resolveSlug r1 :=
    (hcl r1 h1 rc hrc (by rw [hrcid, hid])).1
  -- the canonical row rc is in the filter
  have hrc_mem : rc ∈ l.filter (fun r => decide (r.id = pid ∧ resolveSlug r = r.slug)) := by
    rw [List.mem_filter]
    refine ⟨hrc, ?_⟩
    simp only [decide_eq_true_eq]
    exact ⟨by rw [hrcid, hid], by rw [hrc_res, hrcs]⟩
  have hlower : 0 < (l.filter (fun r => decide (r.id = pid ∧ resolveSlug r = r.slug))).length :=
    List.length_pos_of_mem hrc_mem
  -- every row in the filter has slug text `resolveSlug r1`, and texts are unique
  have hupper : (l.filter (fun r => decide (r.id = pid ∧ resolveSlug r = r.slug))).length ≤ 1 := by
    have himp : ∀ r ∈ l, (fun r => decide (r.id = pid ∧ resolveSlug r = r.slug)) r = true →
        (fun r => decide (r.slug = resolveSlug r1)) r = true := by
      intro r hr hp
      simp only [decide_eq_true_eq] at hp ⊢
      obtain ⟨hpid, hself⟩ := hp
      have hre := (hcl r1 h1 r hr (by rw [hpid, hid])).1
      rw [← hself, hre]
    have hle := List.countP_mono_left himp
    rw [← List.countP_eq_length_filter]
    refine le_trans hle ?_
    have hcount : l.countP (fun r => decide (r.slug = resolveSlug r1))
        = (l.map (fun r => r.slug)).countP (fun t => decide (t = resolveSlug r1)) := by
      rw [List.countP_map]
      rfl
    rw [hcount]
    exact countP_eq_le_one_of_nodup _ hnd _
  omega

/-! ## Same-title publish sequences -/

/-- One publish step in a same-title run: with `n` posts `0..n-1` already
holding slugs `base, base-1, ..., base-(n-1)`, publishing with fresh id `n`
succeeds and assigns `nthSlug base n`. -/
theorem publish_step (tp : Publish) (ts : Timestamp) (base : Str)
    (hbase : Post.slug (mkPost 0 tp ts) = some base) (n : Nat) :
    publish_handler
      { posts := (List.range n).map (fun i => mkPost i tp ts),
        slugs := (List.range n).map (fun i => ⟨nthSlug base i, i, none⟩),
        old := [] } n ts tp noFail
    = ({ posts := (List.range (n + 1)).map (fun i => mkPost i tp ts),
         slugs := (List.range (n + 1)).map (fun i => ⟨nthSlug base i, i, none⟩),
         old := [] },
       PubResp.ok n (nthSlug base n)) := by
  have hbn : Post.slug (mkPost n tp ts) = some base := hbase
  have hany_post : (((List.range n).map (fun i => mkPost i tp ts)).any
      (fun q => q.id = n)) = false := by
    rw [List.any_eq_false]
    intro p hp
    obtain ⟨i, hi, rfl⟩ := List.mem_map.1 hp
    simp only [mkPost, decide_eq_true_eq]
    intro hin
    rw [hin] at hi
    exact absurd (List.mem_range.1 hi) (by omega)
  have hinsert : App.insert_post
      { posts := (List.range n).map (fun i => mkPost i tp ts),
        slugs := (List.range n).map (fun i => ⟨nthSlug base i, i, none⟩),
        old := [] } (mkPost n tp ts)
      = Except.ok
        { posts := (List.range n).map (fun i => mkPost i tp ts) ++ [mkPost n tp ts],
          slugs := (List.range n).map (fun i => ⟨nthSlug base i, i, none⟩),
          old := [] } := by
    unfold App.insert_post
    simp only [mkPost_id]
    rw [if_neg (show ¬((((List.range n).map (fun i => mkPost i tp ts)).any
      (fun q => q.id = n)) = true) by rw [hany_post]; simp)]
  have hfilter : (((List.range n).map
        (fun i => (⟨nthSlug base i, i, none⟩ : SlugRow))).filter
      (fun r => likeMatch (base ++ ['%']) r.slug))
      = (List.range n).map (fun i => ⟨nthSlug base i, i, none⟩) := by
    rw [List.filter_eq_self]
    intro r hr
    obtain ⟨i, hi, rfl⟩ := List.mem_map.1 hr
    show likeMatch (base ++ ['%']) (nthSlug base i) = true
    rw [nthSlug_eq_append]
    exact likeMatch_append base _
  have hcount : App.count_ids_with_similar_slugs
      { posts := (List.range n).map (fun i => mkPost i tp ts) ++ [mkPost n tp ts],
        slugs := (List.range n).map (fun i => ⟨nthSlug base i, i, none⟩),
        old := [] } base = n := by
    show ((((List.range n).map (fun i => (⟨nthSlug base i, i, none⟩ : SlugRow))).filter
        (fun r => likeMatch (base ++ ['%']) r.slug)).foldl
        (fun m r => insertAssoc m r.id r.slug) []).length = n
    rw [hfilter, foldl_insertAssoc_length _ [] List.Pairwise.nil]
    have hkeys : ((List.range n).map
        (fun i => (⟨nthSlug base i, i, none⟩ : SlugRow))).map (fun r => r.id)
        = List.range n := by
      rw [List.map_map]
      rw [show ((fun r : SlugRow => r.id)
        ∘ (fun i => (⟨nthSlug base i, i, none⟩ : SlugRow))) = id from rfl]
      exact List.map_id _
    rw [hkeys]
    simp only [List.map_nil, List.toFinset_nil, Finset.empty_union]
    rw [List.toFinset_card_of_nodup (List.nodup_range _), List.length_range]
  have hslug_if : (if n > 0 then base ++ numSuffix n else base) = nthSlug base n := by
    unfold nthSlug
    by_cases h : n = 0 <;> simp [h]
  have hany_slug : (((List.range n).map
      (fun i => (⟨nthSlug base i, i, none⟩ : SlugRow))).any
      (fun r => r.slug = nthSlug base n)) = false := by
    rw [List.any_eq_false]
    intro r hr
    obtain ⟨i, hi, rfl⟩ := List.mem_map.1 hr
    simp only [decide_eq_true_eq]
    intro heq
    have := nthSlug_injective base heq
    rw [this] at hi
    exact absurd (List.mem_range.1 hi) (by omega)
  have hinsert_slug : App.insert_slug
      { posts := (List.range n).map (fun i => mkPost i tp ts) ++ [mkPost n tp ts],
        slugs := (List.range n).map (fun i => ⟨nthSlug base i, i, none⟩),
        old := [] } (nthSlug base n) (mkPost n tp ts).id
      = Except.ok
        { posts := (List.range n).map (fun i => mkPost i tp ts) ++ [mkPost n tp ts],
          slugs := (List.range n).map (fun i => ⟨nthSlug base i, i, none⟩)
            ++ [⟨nthSlug base n, n, none⟩],
          old := [] } := by
    unfold App.insert_slug
    rw [if_neg (show ¬((((List.range n).map
        (fun i => (⟨nthSlug base i, i, none⟩ : SlugRow))).any
      (fun r => r.slug = nthSlug base n)) = true) by rw [hany_slug]; simp)]
    rfl
  unfold publish_handler
  simp only [noFail]
  simp only [Bool.false_eq_true, if_false]
  rw [hinsert]
  simp only []
  rw [hbn]
  simp only []
  rw [hcount, hslug_if, hinsert_slug]
  simp only []
  rw [List.range_succ, List.map_append, List.map_append]
  simp [mkPost]

/-- Full characterization of a same-title publish run. -/
theorem pubIter_spec (tp : Publish) (ts : Timestamp) (base : Str)
    (hbase : Post.slug (mkPost 0 tp ts) = some base) :
    ∀ n : Nat,
      pubIter tp ts n
        = ({ posts := (List.range n).map (fun i => mkPost i tp ts),
             slugs := (List.range n).map (fun i => ⟨nthSlug base i, i, none⟩),
             old := [] },
           (List.range n).map (fun i => nthSlug base i)) := by
  intro n
  induction n with
  | zero => simp [pubIter, emptyDb]
  | succ n ih =>
    rw [pubIter, ih]
    simp only []
    rw [publish_step tp ts base hbase n]
    simp only []
    rw [List.range_succ, List.map_append]
    simp

/-! ## Claim theorems -/

/-- C2: the spec requires truncation of the title to its first 26
CHARACTERS, never splitting a multi-byte character, total on all Unicode
titles.  The code slices the first 26 BYTES of the title: on the
14-character title "a" followed by 13 copies of "é" (27 bytes) the slice
panics (modelled by `none`) because byte 26 falls inside a character, and
on 14 copies of "é" (28 bytes) it keeps only 13 of the 14 characters even
though the title is far below 26 characters. -/
theorem c2_code_truncation_bug :
    shortOf ("aééééééééééééé".toList) = none
    ∧ Post.slug (mkPost 0 ⟨"aééééééééééééé".toList, none, []⟩ ts0) = none
    ∧ (shortOf ("éééééééééééééé".toList)).map List.length = some 13
    ∧ ("éééééééééééééé".toList).length = 14 := by
  decide

/-- C5: publishing `n` times with the same title and date starting from an
empty directory assigns exactly the slugs `base`, `base-1`, ...,
`base-(n-1)` in creation order, pairwise distinct, where `base` is the
generated candidate slug of the common title and date. -/
theorem c5_publish_sequence (tp : Publish) (ts : Timestamp) (base : Str)
    (hbase : Post.slug (mkPost 0 tp ts) = some base) (n : Nat) :
    (pubIter tp ts n).2 = (List.range n).map (fun i => nthSlug base i)
    ∧ (pubIter tp ts n).2.Nodup := by
  rw [pubIter_spec tp ts base hbase n]
  refine ⟨rfl, ?_⟩
  show ((List.range n).map (fun i => nthSlug base i)).Nodup
  exact (List.nodup_range n).map (nthSlug_injective base)

/-- Witness for C5: three same-title publishes of "a" on 2024-03-05. -/
theorem c5_witness :
    Post.slug (mkPost 0 tpA ts0) = some ("a-2024-03-05".toList)
    ∧ ((pubIter tpA ts0 3).2
        = (List.range 3).map (fun i => nthSlug ("a-2024-03-05".toList) i)
      ∧ (pubIter tpA ts0 3).2.Nodup) :=
  ⟨by decide, c5_publish_sequence tpA ts0 _ (by decide) 3⟩

/-- C7: read-by-slug returns not-found exactly when the requested slug was
never issued; when the slug resolves to a different canonical slug it
returns a permanent redirect to it whatever the post table holds (no
further lookup); when the slug resolves to itself but the owning post row
is missing it returns a server error, never not-found. -/
theorem c7_read_by_slug (db : Db) (s : Str) :
    (post_handler db s = ReadResp.notFound ↔ ∀ r ∈ db.slugs, r.slug ≠ s)
    ∧ (∀ id ns, App.get_newest_slug db s = some (id, ns) → ns ≠ s →
        ∀ posts' : List Post,
          post_handler { db with posts := posts' } s = ReadResp.redirect ns)
    ∧ (∀ id, App.get_newest_slug db s = some (id, s) →
        App.find_post db id = none →
        post_handler db s = ReadResp.serverError) := by
  have hnone : App.get_newest_slug db s = none ↔ ∀ r ∈ db.slugs, r.slug ≠ s := by
    unfold App.get_newest_slug
    rw [Option.map_eq_none', List.find?_eq_none]
    constructor
    · intro h r hr hrs
      exact h r hr (by simpa using hrs)
    · intro h r hr
      simpa using h r hr
  have hmain : ∀ id ns, App.get_newest_slug db s = some (id, ns) →
      post_handler db s ≠ ReadResp.notFound := by
    intro id ns hg
    unfold post_handler
    rw [hg]
    simp only []
    by_cases hne : ns ≠ s
    · rw [if_pos hne]
      simp
    · rw [if_neg hne]
      cases App.find_post db id <;> simp
  refine ⟨⟨?_, ?_⟩, ?_, ?_⟩
  · intro hnf
    rcases hg : App.get_newest_slug db s with _ | ⟨id, ns⟩
    · exact hnone.1 hg
    · exact absurd hnf (hmain id ns hg)
  · intro hall
    unfold post_handler
    rw [hnone.2 hall]
  · intro id ns hg hne posts'
    have hg' : App.get_newest_slug { db with posts := posts' } s = some (id, ns) := hg
    unfold post_handler
    rw [hg']
    simp only []
    rw [if_pos hne]
  · intro id hg hmiss
    unfold post_handler
    rw [hg]
    simp only []
    rw [if_neg (by simp), hmiss]

/-- Witness for C7: a not-found iff on a live database, a redirect from a
retired slug, and a server error on a dangling slug row. -/
theorem c7_witness :
    (post_handler dbRead ("zzz".toList) = ReadResp.notFound
      ↔ ∀ r ∈ dbRead.slugs, r.slug ≠ "zzz".toList)
    ∧ post_handler { dbRead with posts := dbRead.posts } ("old1".toList)
        = ReadResp.redirect ("new1".toList)
    ∧ post_handler dbCorrupt ("s5".toList) = ReadResp.serverError :=
  ⟨(c7_read_by_slug dbRead _).1,
   (c7_read_by_slug dbRead _).2.1 1 _ (by decide) (by decide) dbRead.posts,
   (c7_read_by_slug dbCorrupt _).2.2 5 (by decide) (by decide)⟩

/-- C8: a failure injected after the post-row write and before commit (at
the similar-slug count, the slug insert, or the commit) leaves the
database exactly as it was - neither the post row nor any slug row from
the publish is visible - and surfaces a server error. -/
theorem c8_publish_atomicity (db : Db) (fid : Nat) (now : Timestamp) (tp : Publish)
    (fp : FailPlan)
    (hslug : (Post.slug (mkPost fid tp now)).isSome = true)
    (hfail : fp.failCount = true ∨ fp.failInsertSlug = true ∨ fp.failCommit = true) :
    publish_handler db fid now tp fp = (db, PubResp.serverError) := by
  obtain ⟨s0, hs0⟩ := Option.isSome_iff_exists.1 hslug
  unfold publish_handler
  by_cases hb : fp.failBegin = true
  · rw [if_pos hb]
  · rw [if_neg hb]
    split
    · rfl
    · rename_i db1 heq1
      rw [hs0]
      simp only []
      by_cases hc : fp.failCount = true
      · rw [if_pos hc]
      · rw [if_neg hc]
        split
        · rfl
        · rename_i db2 heq2
          by_cases hcm : fp.failCommit = true
          · rw [if_pos hcm]
          · exfalso
            rcases hfail with h | h | h
            · exact hc h
            · rw [h] at heq2
              simp at heq2
            · exact hcm h

/-- Witness for C8: a forced slug-insert failure on a publish against the
one-post database. -/
theorem c8_witness :
    publish_handler dbPub 1 ts0 tpA ⟨false, false, false, true, false⟩
      = (dbPub, PubResp.serverError) :=
  c8_publish_atomicity dbPub 1 ts0 tpA _ (by decide) (Or.inr (Or.inl rfl))

/-- C9: every successful update appends exactly one archive entry holding
the complete pre-update post, and afterwards the post row holds exactly the
post-update field values. -/
theorem c9_update_archives_preimage (db : Db) (target : Nat) (now : Timestamp)
    (tp : Publish) (e : Post) (i : Nat) (s : Str)
    (he : App.find_post db target = some e)
    (h : (update_handler db target now tp).2 = UpdResp.ok i s) :
    (update_handler db target now tp).1.old = db.old ++ [(target, e)]
    ∧ App.find_post (update_handler db target now tp).1 target
        = some (mkPost target tp now) :=
  ⟨(update_ok_spec db target now tp e i s he h).2.1,
   (update_ok_spec db target now tp e i s he h).2.2⟩

/-- Witness for C9: a same-title update of the published post archives the
original post and leaves the re-stamped row. -/
theorem c9_witness :
    (update_handler dbPub 0 ts0 tpA).1.old = dbPub.old ++ [(0, mkPost 0 tpA ts0)]
    ∧ App.find_post (update_handler dbPub 0 ts0 tpA).1 0
        = some (mkPost 0 tpA ts0) :=
  c9_update_archives_preimage dbPub 0 ts0 tpA (mkPost 0 tpA ts0) 0
    ("a-2024-03-05".toList) (by decide) (by decide)

/-- C10: with no `basic_auth` section every request is admitted with no
credentials at all; with one configured, a request is admitted exactly when
it carries Basic credentials matching the configured username and password,
and is otherwise rejected with 401 before the handler runs. -/
theorem c10_basic_auth (cfg : Option BasicAuthConfig) (creds : Option (Str × Str)) :
    (cfg = none → basic_auth_layer cfg creds = AuthDecision.allow)
    ∧ (∀ c, cfg = some c →
        (basic_auth_layer cfg creds = AuthDecision.allow
          ↔ creds = some (c.user, c.password)))
    ∧ (basic_auth_layer cfg creds = AuthDecision.allow
        ∨ basic_auth_layer cfg creds = AuthDecision.denied401) := by
  refine ⟨?_, ?_, ?_⟩
  · rintro rfl
    cases creds <;> rfl
  · rintro c rfl
    rcases creds with _ | ⟨u, p⟩
    · simp [basic_auth_layer]
    · unfold basic_auth_layer
      simp only []
      by_cases hm : u = c.user ∧ p = c.password
      · rw [if_pos hm]
        simp [hm.1, hm.2]
      · rw [if_neg hm]
        constructor
        · intro hh
          exact absurd hh (by simp)
        · intro hh
          simp only [Option.some.injEq, Prod.mk.injEq] at hh
          exact absurd hh hm
  · cases cfg with
    | none => exact Or.inl (by cases creds <;> rfl)
    | some c =>
      rcases creds with _ | ⟨u, p⟩
      · exact Or.inr rfl
      · unfold basic_auth_layer
        simp only []
        by_cases hm : u = c.user ∧ p = c.password
        · rw [if_pos hm]
          exact Or.inl rfl
        · rw [if_neg hm]
          exact Or.inr rfl

/-- Witness for C10: matching credentials are admitted. -/
theorem c10_witness :
    basic_auth_layer (some ⟨"u".toList, "p".toList, none⟩)
      (some ("u".toList, "p".toList)) = AuthDecision.allow :=
  ((c10_basic_auth (some ⟨"u".toList, "p".toList, none⟩)
    (some ("u".toList, "p".toList))).2.1 _ rfl).mpr rfl

/-- C1 counterexample: publish a post at `ts0`, update it at `ts1`; the
stored publication timestamp is `ts1`, not the creation-time `ts0` - the
update re-stamps `published`, contradicting the claim that edits preserve
the original publish time. -/
theorem c1_counterexample :
    ((App.find_post dbPub 0).map (fun p => p.published)) = some ts0
    ∧ (update_handler dbPub 0 ts1 tpB).2 = UpdResp.ok 0 ("b-2024-03-06".toList)
    ∧ ((App.find_post (update_handler dbPub 0 ts1 tpB).1 0).map
        (fun p => p.published)) = some ts1
    ∧ ts1 ≠ ts0 := by
  decide

/-- C1 (amended): every successful update overwrites the post row with the
request's title, subtitle and body AND re-sets the publication timestamp to
the update time `now`; the creation-time value is not preserved. -/
theorem c1_amended_update_restamps_published (db : Db) (target : Nat)
    (now : Timestamp) (tp : Publish) (e : Post) (i : Nat) (s : Str)
    (he : App.find_post db target = some e)
    (h : (update_handler db target now tp).2 = UpdResp.ok i s) :
    App.find_post (update_handler db target now tp).1 target
      = some (mkPost target tp now)
    ∧ ((App.find_post (update_handler db target now tp).1 target).map
        (fun p => p.published)) = some now := by
  have h3 := (update_ok_spec db target now tp e i s he h).2.2
  exact ⟨h3, by rw [h3]; rfl⟩

/-- Witness for C1 amended: the concrete update of `c1_counterexample`. -/
theorem c1_witness :
    App.find_post (update_handler dbPub 0 ts1 tpB).1 0 = some (mkPost 0 tpB ts1)
    ∧ ((App.find_post (update_handler dbPub 0 ts1 tpB).1 0).map
        (fun p => p.published)) = some ts1 :=
  c1_amended_update_restamps_published dbPub 0 ts1 tpB (mkPost 0 tpA ts0) 0
    ("b-2024-03-06".toList) (by decide) (by decide)

/-- C3 counterexample: after publishing a post and completing one
title-changing update, ZERO of the post's slug rows have an unset
superseded-by pointer (the new canonical row points at itself), so "exactly
one of the post's slug rows has no superseded-by pointer" fails. -/
theorem c3_counterexample :
    (update_handler dbPub 0 ts1 tpB).2 = UpdResp.ok 0 ("b-2024-03-06".toList)
    ∧ ((update_handler dbPub 0 ts1 tpB).1.slugs.filter
        (fun r => r.newslug = none)).length = 0
    ∧ (update_handler dbPub 0 ts1 tpB).1.slugs
        = [⟨"a-2024-03-05".toList, 0, some ("b-2024-03-06".toList)⟩,
           ⟨"b-2024-03-06".toList, 0, some ("b-2024-03-06".toList)⟩] := by
  decide

/-- C3 (amended): at every point reachable by publishes (with fresh ids)
and updates, every post with slug rows has exactly one SELF-RESOLVING
(canonical) row - the canonical row carries either no pointer or a pointer
to itself - and every slug row of the post resolves in one hop to that
canonical slug.  `OneHopInv` holds initially and is preserved by every
publish and every update. -/
theorem c3_amended_one_hop :
    OneHopInv emptyDb
    ∧ (∀ (db : Db) (fid : Nat) (now : Timestamp) (tp : Publish) (fp : FailPlan),
        OneHopInv db → (∀ r ∈ db.slugs, r.id ≠ fid) →
        OneHopInv (publish_handler db fid now tp fp).1)
    ∧ (∀ (db : Db) (target : Nat) (now : Timestamp) (tp : Publish),
        OneHopInv db → OneHopInv (update_handler db target now tp).1)
    ∧ (∀ db : Db, OneHopInv db → ∀ pid : Nat, ∀ r1 ∈ db.slugs, r1.id = pid →
        (db.slugs.filter (fun r => r.id = pid ∧ resolveSlug r = r.slug)).length = 1) :=
  ⟨by decide, oneHopInv_publish, oneHopInv_update,
   fun db hinv pid r1 h1 hid => oneHopRows_unique_canonical db.slugs hinv pid r1 h1 hid⟩

/-- Witness for C3 amended: the invariant survives the concrete update of
`c3_counterexample`. -/
theorem c3_witness :
    OneHopInv (update_handler dbPub 0 ts1 tpB).1 :=
  c3_amended_one_hop.2.2.1 dbPub 0 ts1 tpB (by decide)

/-- Databases for the C4 counterexample: a candidate with an `_` wildcard,
one post owning two matching slugs, and an uppercase candidate. -/
def dbWild : Db := ⟨[], [⟨"ab".toList, 1, none⟩], []⟩

def dbDup : Db := ⟨[], [⟨"b".toList, 7, none⟩, ⟨"b-1".toList, 7, none⟩], []⟩

def dbCase : Db := ⟨[], [⟨"ab".toList, 2, none⟩], []⟩

/-- C4 counterexample: `countSimilar` does not count slug rows with the
candidate as a literal case-sensitive prefix.  An `_` in the candidate acts
as a `LIKE` wildcard (1 instead of 0), two matching rows of one post
collapse to a single map entry (1 instead of 2), and matching is ASCII
case-insensitive (1 instead of 0 for an uppercase candidate). -/
theorem c4_counterexample :
    (App.count_ids_with_similar_slugs dbWild ("a_".toList) = 1
      ∧ spec_countSimilar dbWild ("a_".toList) = 0)
    ∧ (App.count_ids_with_similar_slugs dbDup ("b".toList) = 1
      ∧ spec_countSimilar dbDup ("b".toList) = 2)
    ∧ (App.count_ids_with_similar_slugs dbCase ("AB".toList) = 1
      ∧ spec_countSimilar dbCase ("AB".toList) = 0) := by
  decide

/-- C4 (amended): `countSimilar(candidate)` returns the number of DISTINCT
post ids owning at least one slug row whose text matches the SQL `LIKE`
pattern `candidate ++ "%"` (ASCII-case-insensitive, with `%` and `_`
inside the candidate acting as wildcards); multiple matching rows of one
post count once. -/
theorem c4_amended_count_distinct_ids (db : Db) (cand : Str) :
    App.count_ids_with_similar_slugs db cand
      = ((db.slugs.filter (fun r => likeMatch (cand ++ ['%']) r.slug)).map
          (fun r => r.id)).dedup.length := by
  show ((db.slugs.filter (fun r => likeMatch (cand ++ ['%']) r.slug)).foldl
      (fun m r => insertAssoc m r.id r.slug) []).length = _
  rw [foldl_insertAssoc_length _ [] List.Pairwise.nil]
  simp only [List.map_nil, List.toFinset_nil, Finset.empty_union]
  exact List.card_toFinset _

/-- C6 counterexample: the publish leaves the post's only slug row with no
superseded-by pointer; a base-preserving update returns that exact slug and
inserts nothing, BUT the retarget step still writes a superseded-by pointer
(a self-pointer) onto the reused canonical row, so "no redirect pointer is
created for that post" fails at the row level. -/
theorem c6_counterexample :
    dbPub.slugs = [⟨"a-2024-03-05".toList, 0, none⟩]
    ∧ (update_handler dbPub 0 ts0 tpA).2 = UpdResp.ok 0 ("a-2024-03-05".toList)
    ∧ (update_handler dbPub 0 ts0 tpA).1.slugs
        = [⟨"a-2024-03-05".toList, 0, some ("a-2024-03-05".toList)⟩] := by
  decide

/-- C6 (amended): when the post being updated already owns one of the
similar slugs, the update returns that exact owned slug and inserts no new
slug row (the `(slug, id)` projection of the table is unchanged); the
retarget step nevertheless runs and sets the superseded-by pointer of every
slug row of the post - the reused canonical row included, which receives a
self-pointer producing no observable redirect. -/
theorem c6_amended_reuse_owned_slug (db : Db) (target : Nat) (now : Timestamp)
    (tp : Publish) (e : Post) (slug0 owned : Str)
    (he : App.find_post db target = some e)
    (hslug : Post.slug (mkPost e.id tp now) = some slug0)
    (hlk : lookupAssoc (App.find_ids_with_similar_slugs db slug0) e.id = some owned) :
    (update_handler db target now tp).2 = UpdResp.ok e.id owned
    ∧ (update_handler db target now tp).1.slugs.map (fun r => (r.slug, r.id))
        = db.slugs.map (fun r => (r.slug, r.id))
    ∧ (∃ rr ∈ db.slugs, rr.id = e.id ∧ rr.slug = owned)
    ∧ ∀ r ∈ (update_handler db target now tp).1.slugs,
        r.id = e.id → r.newslug = some owned :=
  update_reuse_spec db target now tp e slug0 owned he hslug hlk

/-- Witness for C6 amended: the concrete base-preserving update of
`c6_counterexample`. -/
theorem c6_witness :
    (update_handler dbPub 0 ts0 tpA).2 = UpdResp.ok 0 ("a-2024-03-05".toList)
    ∧ (update_handler dbPub 0 ts0 tpA).1.slugs.map (fun r => (r.slug, r.id))
        = dbPub.slugs.map (fun r => (r.slug, r.id))
    ∧ (∃ rr ∈ dbPub.slugs, rr.id = 0 ∧ rr.slug = "a-2024-03-05".toList)
    ∧ ∀ r ∈ (update_handler dbPub 0 ts0 tpA).1.slugs,
        r.id = 0 → r.newslug = some ("a-2024-03-05".toList) :=
  c6_amended_reuse_owned_slug dbPub 0 ts0 tpA (mkPost 0 tpA ts0)
    ("a-2024-03-05".toList) ("a-2024-03-05".toList)
    (by decide) (by decide) (by decide)

end Blog3
